import Mathlib

/-!
Shallow embedding of the media-acquisition pipeline of the handing-exporter
repository, together with proofs about the embedded operations.

The embedding follows the TypeScript sources:
  - src/downloaders/DownloaderFactory.ts      (strategy registry)
  - src/downloaders/DirectFileDownloader.ts   (URL filtering, HTML classifier)
  - src/downloaders/GooglePhotosDownloader.ts (progressive scroll loop, no-page guard)
  - src/downloaders/GoogleDriveFolderDownloader.ts (height scroll loop, no-page guard)
  - src/downloaders/GoogleDriveFileDownloader.ts (no-page guard)
  - src/media-processor.ts                    (single media dispatch)
  - manifest module (unnamed part_000)        (load/update/query of the manifest)
  - utils module (unnamed part_001)           (retryWithBackoff)
  - main entry point (unnamed part_002)       (per-post orchestration loop body)

Effectful operations (file system, network, browser) are modelled by explicit
environment records whose fields supply the outcome of each external call, and
JavaScript objects with optional properties are modelled by structures of
Option fields.  String truthiness of JavaScript is modelled explicitly where
the source relies on it.
-/

/-! ### String helpers

JavaScript uses String.prototype.includes, startsWith, endsWith, toLowerCase
and match with global literal patterns.  The models below work on the char
list underlying a String.  Counting is non-overlapping, advancing past each
match, exactly as a global regex literal match does.
-/

/-- Model of JavaScript includes: does the pattern occur as a contiguous
substring of s? -/
def listContainsSub (pat : List Char) : List Char → Bool
  | [] => pat.isEmpty
  | c :: rest => pat.isPrefixOf (c :: rest) || listContainsSub pat rest

/-- String wrapper for listContainsSub. -/
def strContains (s pat : String) : Bool :=
  listContainsSub pat.data s.data

/-- Model of startsWith on the underlying character lists. -/
def strStarts (s pre : String) : Bool :=
  pre.data.isPrefixOf s.data

/-- Model of endsWith on the underlying character lists. -/
def strEnds (s post : String) : Bool :=
  post.data.isSuffixOf s.data

/-- Model of toLowerCase, applied character by character.  The inputs of
the repository (URLs and markup phrases) are ASCII, where this agrees with
the JavaScript behaviour. -/
def strToLower (s : String) : String :=
  String.mk (s.data.map Char.toLower)

/-- Model of a global regex-literal match count: number of non-overlapping
occurrences of pat in s, scanning left to right and advancing past each
match, exactly as a global regex literal does.  The scan is implemented
with an explicit skip counter so that the recursion is structural on the
scanned list: after a match at the current position the head is consumed
and the remaining length-minus-one matched characters are skipped.  Only
meaningful for a non-empty pattern, matching the source where the patterns
are the literal p, article and nav tags. -/
def countSkip (pat : List Char) : Nat → List Char → Nat
  | _, [] => 0
  | skip + 1, _ :: rest => countSkip pat skip rest
  | 0, c :: rest =>
    if pat ≠ [] ∧ pat.isPrefixOf (c :: rest) then
      1 + countSkip pat (pat.length - 1) rest
    else
      countSkip pat 0 rest

/-- String wrapper for countSkip. -/
def countStr (s pat : String) : Nat :=
  countSkip pat.data 0 s.data

/-- Model of the video URL regex from the main entry point:
a dot-extension in the list followed by a query mark or the end of the
string, case-insensitively. -/
def isVideoUrl (url : String) : Bool :=
  let lower := strToLower url
  ["mp4", "mov", "avi", "webm", "m4v"].any fun ext =>
    strEnds lower ("." ++ ext) || strContains lower ("." ++ ext ++ "?")

/-! ### Download results and acquisition strategies -/

/-- Status of a single download result. -/
inductive DlStatus
  | success
  | failed
deriving DecidableEq, Repr

/-- Model of the DownloadResult record returned by every strategy. -/
structure DlResult where
  status : DlStatus
  url : String
  localPath : Option String := none
  filename : Option String := none
  size : Option Nat := none
  sourceName : Option String := none
  error : Option String := none
deriving DecidableEq, Repr

/-- A registered acquisition strategy: the capability check, the priority
and the download method.  The download method returns an Except value so
that a thrown exception can be modelled; the concrete strategies of the
repository catch their own exceptions and only ever return a result list. -/
structure Downloader where
  canHandle : String → Bool
  getPriority : Int
  run : String → Except String (List DlResult)

/-- Stable descending insertion of d into a list already sorted by
descending priority: d is placed before the first element whose priority
does not exceed it, so that among equal priorities the earlier-registered
element stays first.  This is the canonical result of the stable
Array.prototype.sort with the comparator priorityB - priorityA. -/
def insertDesc (d : Downloader) : List Downloader → List Downloader
  | [] => [d]
  | e :: es => if e.getPriority ≤ d.getPriority then d :: e :: es else e :: insertDesc d es

/-- Stable sort by descending priority, processing the candidate list from
the front so that registration order is preserved on ties. -/
def sortDesc : List Downloader → List Downloader
  | [] => []
  | d :: ds => insertDesc d (sortDesc ds)

/-- Model of DownloaderFactory.getDownloader: filter the registered
strategies by canHandle; none if empty; the sole candidate if exactly one;
otherwise the head of the stable descending sort by priority. -/
def getDownloader (registry : List Downloader) (url : String) : Option Downloader :=
  let candidates := registry.filter fun d => d.canHandle url
  match candidates with
  | [] => none
  | [d] => some d
  | _ => (sortDesc candidates).head?

/-- Modelled from the spec: resolve returns the first registered candidate
attaining the maximal priority among those whose canHandle accepts the URL
(none when no candidate exists).  A later candidate replaces the current
best only when its priority is strictly higher, so the first registered
wins on ties. -/
def firstMaxPrio : List Downloader → Option Downloader
  | [] => none
  | d :: ds =>
    match firstMaxPrio ds with
    | none => some d
    | some b => if d.getPriority < b.getPriority then some b else some d

/-- Modelled from the spec's wording of the registry contract. -/
def resolveSpec (registry : List Downloader) (url : String) : Option Downloader :=
  firstMaxPrio (registry.filter fun d => d.canHandle url)

/-! ### DirectFileDownloader URL filtering -/

/-- Gallery link test shared by DirectFileDownloader and MediaProcessor. -/
def isGalleryLink (url : String) : Bool :=
  strContains url "photos.app.goo.gl" ||
  strContains url "photos.google.com/share" ||
  strContains url "drive.google.com/drive/folders"

/-- Character class of the regex bracket for lowercase letters and a dot. -/
def isAzDot (c : Char) : Bool :=
  ('a' ≤ c && c ≤ 'z') || c == '.'

/-- Continuation of the Amazon product regex after a literal amazon-dot
occurrence: one or more lowercase-or-dot characters, then a slash, then any
characters, then the literal slash-dp-slash.  Because the character class
excludes the slash, the greedy run is forced, making this an exact
existence test for the unanchored regex. -/
def amazonAfter (s : List Char) : Bool :=
  let run := s.takeWhile isAzDot
  let rest := List.drop run.length s
  decide (1 ≤ run.length) &&
    (match rest with
     | '/' :: r => listContainsSub "/dp/".data r
     | _ => false)

/-- Existence test for the unanchored Amazon product-page regex: at some
position of s, the literal amazon-dot followed by amazonAfter. -/
def amazonDpMatch : List Char → Bool
  | [] => false
  | c :: rest =>
    ((("amazon.".data).isPrefixOf (c :: rest)) && amazonAfter (List.drop 7 (c :: rest))) ||
    amazonDpMatch rest

/-- Model of DirectFileDownloader.isNonDownloadableUrl: URL shapes known to
be a web page, app, form or similar, checked on the lowercased URL in the
order of the source. -/
def isNonDownloadableUrl (url : String) : Bool :=
  let lowerUrl := strToLower url
  if strStarts lowerUrl "mailto:" then true
  else if strContains lowerUrl "youtube.com/watch" || strContains lowerUrl "youtube.com/live" ||
          strContains lowerUrl "youtu.be/" then true
  else if strContains lowerUrl "padlet.com/" || strContains lowerUrl "forms.google.com/" ||
          strContains lowerUrl "docs.google.com/forms/" then true
  else if strContains lowerUrl "zoom.us/" || strContains lowerUrl "meet.google.com/" then true
  else if strContains lowerUrl "google.com/maps" then true
  else if strContains lowerUrl "play.google.com" || strContains lowerUrl "apps.apple.com" ||
          strContains lowerUrl "itunes.apple.com" || strContains lowerUrl "apps.microsoft.com" ||
          strContains lowerUrl "chrome.google.com/webstore" then true
  else if amazonDpMatch lowerUrl.data || strContains lowerUrl "mercadolibre.com" ||
          strContains lowerUrl "ebay.com/itm/" then true
  else if strContains lowerUrl "facebook.com" || strContains lowerUrl "instagram.com/p/" ||
          strContains lowerUrl "twitter.com" || strContains lowerUrl "linkedin.com/posts/" then true
  else if strContains lowerUrl "linktr.ee/" || strContains lowerUrl "bit.ly/" ||
          strContains lowerUrl "forms.gle/" then true
  else if ["com", "ar", "edu", "org", "net"].any (fun d =>
            strEnds lowerUrl ("." ++ d) || strEnds lowerUrl ("." ++ d ++ "/")) then true
  else false

/-- Model of DirectFileDownloader.canHandle. -/
def directCanHandle (url : String) : Bool :=
  if isGalleryLink url then false
  else if isNonDownloadableUrl url then false
  else true

/-- Model of GooglePhotosDownloader.canHandle. -/
def gphotosCanHandle (url : String) : Bool :=
  strContains url "photos.app.goo.gl" || strContains url "photos.google.com/share"

/-- Model of GoogleDriveFolderDownloader.canHandle. -/
def driveFolderCanHandle (url : String) : Bool :=
  strContains url "drive.google.com/drive/folders" || strContains url "drive.google.com/drive/u/"

/-- Model of GoogleDriveFileDownloader.canHandle. -/
def driveFileCanHandle (url : String) : Bool :=
  strContains url "drive.google.com/file/d/"

/-- Model of the DownloaderFactory constructor: the four strategies in
registration order, with their download methods supplied as parameters. -/
def factoryRegistry (runPhotos runFolder runFile runDirect : String → Except String (List DlResult)) :
    List Downloader :=
  [ { canHandle := gphotosCanHandle, getPriority := 10, run := runPhotos },
    { canHandle := driveFolderCanHandle, getPriority := 10, run := runFolder },
    { canHandle := driveFileCanHandle, getPriority := 10, run := runFile },
    { canHandle := directCanHandle, getPriority := 0, run := runDirect } ]

/-! ### HTML content classifier of DirectFileDownloader -/

/-- Error page phrases of isUnwantedHtmlPage. -/
def errorIndicators : List String :=
  ["404 not found", "403 forbidden", "access denied", "page not found",
   "error occurred", "something went wrong", "unauthorized access",
   "permission denied", "file not found", "content not available"]

/-- Web application and store phrases of isUnwantedHtmlPage. -/
def webAppIndicators : List String :=
  ["apple.com/itunes", "apps.apple.com", "play.google.com", "app store",
   "google play", "download the app", "get it on", "available on the",
   "react-root", "ng-app", "vue-app", "data-reactroot"]

/-- Model of DirectFileDownloader.isUnwantedHtmlPage on the saved content:
only content below the size threshold is inspected; it is unwanted when a
known error phrase or web-app phrase occurs in the lowercased content, or
when the structural signature holds: fewer than three paragraph tags, no
article tag, and at least one nav tag (counted on the original content). -/
def isUnwantedHtmlPage (content : String) : Bool :=
  if content.length < 50000 then
    let lowerContent := strToLower content
    if errorIndicators.any (fun i => strContains lowerContent i) then true
    else if webAppIndicators.any (fun i => strContains lowerContent i) then true
    else if countStr content "<p>" < 3 && countStr content "<article>" == 0 &&
            decide (0 < countStr content "<nav>") then true
    else false
  else false

/-- Model of the tail of DirectFileDownloader.download after a successful
fetch and rename: when the resolved extension is html and the classifier
flags the content, the file is discarded and a failed result returned;
otherwise a success result with the final path and filename is returned. -/
def directDownloadFinish (url content extension finalPath finalFilename linkName : String)
    (size : Nat) : DlResult :=
  if extension == "html" && isUnwantedHtmlPage content then
    { status := DlStatus.failed, url := url,
      error := some "Downloaded HTML appears to be a web page/error page, not a file attachment" }
  else
    { status := DlStatus.success, url := url, localPath := some finalPath,
      filename := some finalFilename, size := some size, sourceName := some linkName }

/-! ### Manifest store (manifest module, unnamed part_000) -/

/-- A stored post record.  The JavaScript object holds exactly the fields
spread from the update call plus the two timestamps, so every other field
is optional, with none modelling an absent property. -/
structure PostRecord where
  title : Option String := none
  url : Option String := none
  markdown_path : Option String := none
  images_count : Option Nat := none
  videos_count : Option Nat := none
  external_links_count : Option Nat := none
  status : Option String := none
  error : Option String := none
  first_downloaded : String
  last_updated : String
deriving DecidableEq, Repr

/-- The fields object passed to updatePost; absent properties are none. -/
structure PostFields where
  title : Option String := none
  url : Option String := none
  markdown_path : Option String := none
  images_count : Option Nat := none
  videos_count : Option Nat := none
  external_links_count : Option Nat := none
  status : Option String := none
  error : Option String := none
deriving DecidableEq, Repr

/-- A stored avatar record. -/
structure AvatarRecord where
  author : String
  url : String
  filename : String
  downloaded_at : String
  status : String
  error : Option String := none
deriving DecidableEq, Repr

/-- The manifest metadata object. -/
structure ManifestMeta where
  group_name : String
  created_at : String
  last_run : Option String
  total_posts : Nat
  version : String
deriving DecidableEq, Repr

/-- The manifest: metadata plus keyed post and avatar records, modelled as
association lists with unique keys in insertion order, matching the
property order of a JavaScript object. -/
structure Manifest where
  metadata : ManifestMeta
  posts : List (String × PostRecord)
  avatars : List (String × AvatarRecord)
deriving DecidableEq, Repr

/-- Property lookup on the posts object. -/
def lookupPost (m : Manifest) (postId : String) : Option PostRecord :=
  (m.posts.find? fun p => p.fst == postId).map Prod.snd

/-- Property assignment on the posts object: replace in place when the key
exists, append otherwise. -/
def setPost (posts : List (String × PostRecord)) (postId : String) (r : PostRecord) :
    List (String × PostRecord) :=
  if posts.any (fun p => p.fst == postId) then
    posts.map fun p => if p.fst == postId then (postId, r) else p
  else
    posts ++ [(postId, r)]

/-- Model of updatePost: the stored record becomes the supplied fields with
first_downloaded taken from the existing record when that is a non-empty
string (JavaScript truthiness of the or-chain) and the current time
otherwise, and last_updated set to the current time; total_posts is then
recomputed as the number of keys of the posts object. -/
def updatePost (m : Manifest) (postId : String) (postData : PostFields) (now : String) :
    Manifest :=
  let firstDl :=
    match lookupPost m postId with
    | some r => if r.first_downloaded == "" then now else r.first_downloaded
    | none => now
  let newRec : PostRecord :=
    { title := postData.title, url := postData.url,
      markdown_path := postData.markdown_path,
      images_count := postData.images_count, videos_count := postData.videos_count,
      external_links_count := postData.external_links_count,
      status := postData.status, error := postData.error,
      first_downloaded := firstDl, last_updated := now }
  let posts := setPost m.posts postId newRec
  { m with posts := posts,
           metadata := { m.metadata with total_posts := posts.length } }

/-- Model of isPostComplete: the record exists and its status is the
literal complete. -/
def isPostComplete (m : Manifest) (postId : String) : Bool :=
  match lookupPost m postId with
  | some r => r.status == some "complete"
  | none => false

/-- Model of createEmptyManifest. -/
def createEmptyManifest (groupName now : String) : Manifest :=
  { metadata := { group_name := groupName, created_at := now, last_run := none,
                  total_posts := 0, version := "1.1.0" },
    posts := [], avatars := [] }

/-- The three observable states of the manifest file on disk. -/
inductive ManifestFile
  | missing
  | malformed
  | wellFormed (m : Manifest)

/-- Model of loadManifest: a missing file bootstraps an empty manifest, a
well-formed file parses to its manifest, and a malformed file rethrows the
parse error (only the missing-file error code is caught). -/
def loadManifest (groupName : String) (file : ManifestFile) (now : String) :
    Except String Manifest :=
  match file with
  | ManifestFile.missing => Except.ok (createEmptyManifest groupName now)
  | ManifestFile.malformed => Except.error "JSON parse error"
  | ManifestFile.wellFormed m => Except.ok m

/-- Model of saveManifest on the in-memory manifest: last_run is stamped
before the serialized write. -/
def saveManifest (m : Manifest) (now : String) : Manifest :=
  { m with metadata := { m.metadata with last_run := some now } }

/-! ### Retry policy (utils module, unnamed part_001) -/

/-- The backoff delay slept after the zero-indexed attempt n. -/
def delayFor (initialDelay maxDelay factor n : Nat) : Nat :=
  min (initialDelay * factor ^ n) maxDelay

/-- The retry loop of retryWithBackoff: the operation is modelled by the
outcome of each zero-indexed attempt; the result is paired with the list
of delays slept, in order.  The error component is an Option because with
zero attempts the loop throws the untouched undefined last error. -/
def retryAux {E A : Type} (fn : Nat → Except E A) (initialDelay maxDelay factor : Nat) :
    Nat → Nat → Option E → Except (Option E) A × List Nat
  | _, 0, lastErr => (Except.error lastErr, [])
  | idx, remaining + 1, _ =>
    match fn idx with
    | Except.ok a => (Except.ok a, [])
    | Except.error e =>
      if remaining = 0 then
        (Except.error (some e), [])
      else
        let rest := retryAux fn initialDelay maxDelay factor (idx + 1) remaining (some e)
        (rest.fst, delayFor initialDelay maxDelay factor idx :: rest.snd)

/-- Model of retryWithBackoff. -/
def retryWithBackoff {E A : Type} (fn : Nat → Except E A)
    (maxRetries initialDelay maxDelay factor : Nat) : Except (Option E) A × List Nat :=
  retryAux fn initialDelay maxDelay factor 0 maxRetries none

/-! ### Progressive scroll loops (multi-file enumeration strategies)

The page contents seen at each iteration are modelled by a feed function:
feed k is the list of media identifiers in view when the loop body reads
the page for the k-th time (after k scrolls).
-/

/-- Merging the identifiers in view into the accumulated map: the Map keyed
by URL keeps the first insertion and ignores repeats, preserving insertion
order. -/
def addNewMedia (acc : List String) (inView : List String) : List String :=
  inView.foldl (fun a u => if a.contains u then a else a ++ [u]) acc

/-- The identifiers accumulated after the first n reads of the feed. -/
def mediaUpTo (feed : Nat → List String) : Nat → List String
  | 0 => []
  | n + 1 => addNewMedia (mediaUpTo feed n) (feed n)

/-- Result of the Google Photos progressive scroll loop. -/
structure ScrollResult where
  media : List String
  attempts : Nat
  stalled : Bool
deriving DecidableEq, Repr

/-- The while loop of GooglePhotosDownloader.download: fuel is the number
of remaining iterations allowed by the ceiling of 1000 scroll attempts
(the invariant fuel + attempts = 1000 holds from the initial call); on a
read with new identifiers the consecutive-stall counter resets; on an
empty read it increments and the loop breaks once it reaches the required
25 consecutive empty reads. -/
def scrollGo (feed : Nat → List String) : Nat → Nat → Nat → List String → ScrollResult
  | 0, attempts, _, media => { media := media, attempts := attempts, stalled := false }
  | fuel + 1, attempts, noNewMediaCount, media =>
    let media2 := addNewMedia media (feed attempts)
    if media.length < media2.length then
      scrollGo feed fuel (attempts + 1) 0 media2
    else if 25 ≤ noNewMediaCount + 1 then
      { media := media2, attempts := attempts, stalled := true }
    else
      scrollGo feed fuel (attempts + 1) (noNewMediaCount + 1) media2

/-- Model of the progressive scroll loop of GooglePhotosDownloader with its
source constants: ceiling 1000, required consecutive empty reads 25. -/
def googlePhotosScrollLoop (feed : Nat → List String) : ScrollResult :=
  scrollGo feed 1000 0 0 []

/-- Number of feed reads performed by the loop: the breaking iteration
reads the feed once more without incrementing the scroll counter. -/
def itersRead (r : ScrollResult) : Nat :=
  if r.stalled then r.attempts + 1 else r.attempts

/-- The scroll loop of GoogleDriveFolderDownloader.scrollToLoadAll: the
page is modelled by the scroll height read at each iteration; the loop
breaks as soon as one read repeats the previous height, with a ceiling of
20 scroll attempts.  Returns the final attempt counter and the number of
height reads performed. -/
def driveGo (height : Nat → Nat) : Nat → Nat → Nat → Nat → Nat × Nat
  | 0, attempts, _, reads => (attempts, reads)
  | fuel + 1, attempts, previousHeight, reads =>
    let currentHeight := height reads
    if currentHeight == previousHeight then
      (attempts, reads + 1)
    else
      driveGo height fuel (attempts + 1) currentHeight (reads + 1)

/-- Model of GoogleDriveFolderDownloader.scrollToLoadAll with its source
constants: initial previous height 0, ceiling 20. -/
def scrollToLoadAll (height : Nat → Nat) : Nat × Nat :=
  driveGo height 20 0 0 0

/-! ### Authenticated-session no-page guards -/

/-- An opaque browser page handle. -/
structure PlaywrightPage where
  handle : Nat
deriving DecidableEq, Repr

/-- The behaviour of the body of a session download once a page handle is
present, supplied as an environment: the results returned and the list of
URLs navigated to. -/
structure SessionBody where
  run : String → List DlResult × List String

/-- Model of GooglePhotosDownloader.download at its entry: with no page
handle it returns a single failed result and performs nothing. -/
def googlePhotosDownload (page : Option PlaywrightPage) (body : SessionBody) (url : String) :
    List DlResult × List String :=
  match page with
  | none => ([{ status := DlStatus.failed, url := url,
                error := some "No Playwright page provided" }], [])
  | some _ => body.run url

/-- Model of GoogleDriveFileDownloader.download at its entry. -/
def driveFileDownload (page : Option PlaywrightPage) (body : SessionBody) (url : String) :
    List DlResult × List String :=
  match page with
  | none => ([{ status := DlStatus.failed, url := url,
                error := some "No Playwright page provided to GoogleDriveFileDownloader" }], [])
  | some _ => body.run url

/-- Model of GoogleDriveFolderDownloader.download at its entry. -/
def driveFolderDownload (page : Option PlaywrightPage) (body : SessionBody) (url : String) :
    List DlResult × List String :=
  match page with
  | none => ([{ status := DlStatus.failed, url := url,
                error := some "No Playwright page provided to GoogleDriveFolderDownloader" }], [])
  | some _ => body.run url

/-! ### Per-post orchestration (main entry point, unnamed part_002)

The loop body of the streaming phase is embedded as a pure function over an
environment supplying the outcome of every external call: enrichment of the
post, each media fetch, each direct external-link fetch, the existence check
of the recorded markdown file, the generated paths, and the current time.
Console logging and the markdown writes themselves are outside the model.
-/

/-- An external link discovered in a post. -/
structure ExtLink where
  name : String
  url : String
deriving DecidableEq, Repr

/-- A timeline post before enrichment. -/
structure PostStub where
  id : String
  title : String
  url : String
deriving DecidableEq, Repr

/-- A post after enrichment, restricted to the fields the loop body uses. -/
structure EnrichedPost where
  id : String
  title : String
  url : String
  images : List String
  externalLinks : List ExtLink
deriving DecidableEq, Repr

/-- Outcome of downloadExternalLink: success with the resolved extension,
or failure with an error message. -/
structure ExtFetchResult where
  ok : Bool
  extension : String := ""
  error : String := ""
deriving DecidableEq, Repr

/-- The environment of one loop iteration. -/
structure RunEnv where
  fileExists : String → Bool
  enrich : Except String EnrichedPost
  mediaFetchOk : String → Bool
  extFetch : String → ExtFetchResult
  genExtFilename : String → String → String
  postFilePath : String
  now : String

/-- Accumulator of the external-link loop of the main entry point. -/
structure LinkAcc where
  processedUrls : List String := []
  galleryImages : List (String × String × List String) := []
  downloadedExternalFiles : List (String × String × String) := []
  failedExternalLinks : List ExtLink := []
  trace : List String := []
deriving DecidableEq, Repr

/-- One iteration of the external-link loop of the main entry point:
duplicate URLs are skipped; a gallery downloader (resolved strategy with
positive priority, galleries enabled) is tried first; when it yields no
success, a direct fetch through downloadExternalLink is always attempted;
a link for which every strategy failed is appended to the failed list.
The trace records every URL for which a download was invoked. -/
def handleExternalLink (registry : List Downloader) (galleriesEnabled : Bool) (env : RunEnv)
    (acc : LinkAcc) (link : ExtLink) : LinkAcc :=
  if acc.processedUrls.contains link.url then acc
  else
    let acc1 := { acc with processedUrls := acc.processedUrls ++ [link.url] }
    let downloader := getDownloader registry link.url
    let isGallery : Bool :=
      match downloader with
      | some d => decide (0 < d.getPriority)
      | none => false
    let galleryOutcome : Option (List String) × List String :=
      if isGallery && galleriesEnabled then
        match downloader with
        | some d =>
          match d.run link.url with
          | Except.ok results =>
            let succ := results.filter fun r => r.status == DlStatus.success
            if 0 < succ.length then
              (some (succ.map fun r => r.filename.getD ""), [link.url])
            else (none, [link.url])
          | Except.error _ => (none, [link.url])
        | none => (none, [])
      else (none, [])
    match galleryOutcome.fst with
    | some imgs =>
      { acc1 with
          galleryImages := acc1.galleryImages ++ [(link.url, link.name, imgs)],
          trace := acc1.trace ++ galleryOutcome.snd }
    | none =>
      let r := env.extFetch link.url
      let acc2 := { acc1 with trace := acc1.trace ++ galleryOutcome.snd ++ [link.url] }
      if r.ok then
        { acc2 with downloadedExternalFiles := acc2.downloadedExternalFiles ++
            [(link.name, link.url, env.genExtFilename link.name r.extension)] }
      else
        { acc2 with failedExternalLinks := acc2.failedExternalLinks ++ [link] }

/-- The resume check at the head of the loop body: a unit is skipped only
when the manifest reports it complete, a markdown path is recorded and
truthy, and the access check on that path succeeds. -/
def resumeSkip (env : RunEnv) (m : Manifest) (postId : String) : Bool :=
  if isPostComplete m postId then
    match lookupPost m postId with
    | some r =>
      match r.markdown_path with
      | some p => if p == "" then false else env.fileExists p
      | none => false
    | none => false
  else false

/-- Observable outcome of one loop iteration. -/
structure RunOutcome where
  manifest : Manifest
  skipped : Bool
  fetchTrace : List String
  failedDownloads : Nat
  failedExternalLinks : List ExtLink
deriving DecidableEq, Repr

/-- The loop body of the streaming phase of the main entry point: resume
check, enrichment, the image loop over every image URL, the video loop
over the URLs matching the video regex (downloaded a second time), the
external-link loop, the markdown generation, and the closing manifest
update and save.  When the body completes the record is written with
status complete regardless of how many leaf downloads failed; when the
body throws (modelled by a failing enrichment, the one throwing operation
retained in the model) the record is written with status failed. -/
def processOnePost (registry : List Downloader) (galleriesEnabled : Bool) (env : RunEnv)
    (m : Manifest) (post : PostStub) : RunOutcome :=
  if resumeSkip env m post.id then
    { manifest := m, skipped := true, fetchTrace := [],
      failedDownloads := 0, failedExternalLinks := [] }
  else
    match env.enrich with
    | Except.error msg =>
      let m1 := updatePost m post.id
        { title := some post.title, url := some post.url,
          status := some "failed", error := some msg } env.now
      { manifest := saveManifest m1 env.now, skipped := false, fetchTrace := [],
        failedDownloads := 0, failedExternalLinks := [] }
    | Except.ok ep =>
      let imageOks := ep.images.filter fun u => env.mediaFetchOk u
      let imageFails := ep.images.length - imageOks.length
      let videoUrls := ep.images.filter isVideoUrl
      let videoOks := videoUrls.filter fun u => env.mediaFetchOk u
      let videoFails := videoUrls.length - videoOks.length
      let la := ep.externalLinks.foldl (handleExternalLink registry galleriesEnabled env) {}
      let galleryCount := (la.galleryImages.map fun g => g.snd.snd.length).sum
      let m1 := updatePost m ep.id
        { title := some ep.title, url := some ep.url,
          markdown_path := some env.postFilePath,
          images_count := some (imageOks.length + galleryCount),
          videos_count := some videoOks.length,
          external_links_count := some ep.externalLinks.length,
          status := some "complete" } env.now
      { manifest := saveManifest m1 env.now, skipped := false,
        fetchTrace := ep.images ++ videoUrls ++ la.trace,
        failedDownloads := imageFails + videoFails,
        failedExternalLinks := la.failedExternalLinks }

/-! ### MediaProcessor and the reworked external-link handling of index.ts -/

/-- Model of MediaProcessor.downloadSingleMedia: when no downloader
resolves, a single failed result with the fixed message is returned and no
strategy is invoked; otherwise the resolved strategy runs.  The second
component counts strategy invocations. -/
def downloadSingleMedia (registry : List Downloader) (url : String) :
    Except String (List DlResult) × Nat :=
  match getDownloader registry url with
  | none =>
    (Except.ok [{ status := DlStatus.failed, url := url,
                  error := some "No downloader found for URL" }], 0)
  | some d => (d.run url, 1)

/-- The record an external link ends in, for the reworked loop of
index.ts: the downloaded-files list, the gallery-images list, or the
failed-links list. -/
inductive LinkRecord
  | downloadedFile (filename : String)
  | gallerySuccess (images : List String)
  | failedLink
deriving DecidableEq, Repr

/-- One iteration of the external-link loop of index.ts: a URL with no
resolved downloader is recorded in the failed-links list immediately with
no download invoked; a gallery strategy is tried when priority is positive
and galleries are enabled; the direct strategy runs only for the
priority-zero downloader; every remaining case lands in the failed-links
list.  The second component counts download invocations. -/
def processExternalLinkIdx (registry : List Downloader) (galleriesEnabled : Bool)
    (url : String) : LinkRecord × Nat :=
  match getDownloader registry url with
  | none => (LinkRecord.failedLink, 0)
  | some d =>
    let isGallery : Bool := decide (0 < d.getPriority)
    let s1 : Option (List String) × Nat :=
      if isGallery && galleriesEnabled then
        match d.run url with
        | Except.ok results =>
          let succ := results.filter fun r => r.status == DlStatus.success
          if 0 < succ.length then (some (succ.map fun r => r.filename.getD ""), 1)
          else (none, 1)
        | Except.error _ => (none, 1)
      else (none, 0)
    match s1.fst with
    | some imgs => (LinkRecord.gallerySuccess imgs, s1.snd)
    | none =>
      if d.getPriority == 0 then
        match d.run url with
        | Except.ok results =>
          match results with
          | r :: _ =>
            if r.status == DlStatus.success then
              (LinkRecord.downloadedFile (r.filename.getD ""), s1.snd + 1)
            else (LinkRecord.failedLink, s1.snd + 1)
          | [] => (LinkRecord.failedLink, s1.snd + 1)
        | Except.error _ => (LinkRecord.failedLink, s1.snd + 1)
      else (LinkRecord.failedLink, s1.snd)

/-! ### Concrete instances used by witnesses and counterexamples -/

/-- A download method stub whose every invocation reports a failed fetch. -/
def stubRunFail : String → Except String (List DlResult) :=
  fun u => Except.ok [{ status := DlStatus.failed, url := u,
                        error := some "HTTP 404: Not Found" }]

/-- The factory registry with the failing stub as every download method. -/
def registryStub : List Downloader :=
  factoryRegistry stubRunFail stubRunFail stubRunFail stubRunFail

/-- A download method stub returning no results. -/
def stubRunEmpty : String → Except String (List DlResult) := fun _ => Except.ok []

/-- First of two equal-priority catch-all strategies. -/
def wA : Downloader := { canHandle := fun _ => true, getPriority := 10, run := stubRunEmpty }

/-- Second of two equal-priority catch-all strategies. -/
def wB : Downloader := { canHandle := fun _ => true, getPriority := 10, run := stubRunEmpty }

/-- A manifest history exercising updatePost twice on the same unit: the
first call stores status, error and title; the second call supplies only a
title. -/
def exManifest1 : Manifest :=
  updatePost (createEmptyManifest "g" "T0") "p"
    { title := some "t", status := some "failed", error := some "boom" } "T1"

/-- The manifest after the second updatePost call. -/
def exManifest2 : Manifest := updatePost exManifest1 "p" { title := some "t2" } "T2"

/-- A feed whose identifiers all appear at the first read. -/
def feedW : Nat → List String := fun k => if k = 0 then ["a", "b"] else []

/-- Attempt outcomes failing twice and then succeeding. -/
def retryFnW : Nat → Except Nat Nat :=
  fun k => if k < 2 then Except.error (10 + k) else Except.ok 42

/-- Environment of the failing-leaf run: enrichment succeeds with a single
image whose fetch fails, and there are no external links. -/
def envLeafFail : RunEnv :=
  { fileExists := fun _ => true,
    enrich := Except.ok { id := "p1", title := "T", url := "https://site/post/1",
                          images := ["https://cdn/img1.jpg"], externalLinks := [] },
    mediaFetchOk := fun _ => false,
    extFetch := fun _ => { ok := false, error := "HTTP 404" },
    genExtFilename := fun n e => n ++ "." ++ e,
    postFilePath := "/out/2025/post-1.md",
    now := "2025-10-11T00:00:00Z" }

/-- The timeline stub of the failing-leaf run. -/
def postLeafFail : PostStub := { id := "p1", title := "T", url := "https://site/post/1" }

/-- Outcome of the failing-leaf run on an empty manifest. -/
def outcomeLeafFail : RunOutcome :=
  processOnePost registryStub true envLeafFail (createEmptyManifest "g" "T0") postLeafFail

/-- A record marked complete with a recorded markdown path. -/
def recComplete : PostRecord :=
  { markdown_path := some "/out/p1.md", status := some "complete",
    first_downloaded := "T0", last_updated := "T0" }

/-- A manifest holding the complete record. -/
def mComplete : Manifest :=
  { metadata := { group_name := "g", created_at := "T0", last_run := none,
                  total_posts := 1, version := "1.1.0" },
    posts := [("p1", recComplete)], avatars := [] }

/-- An environment whose existence check always succeeds and whose
enrichment is never reached. -/
def envSkipW : RunEnv :=
  { fileExists := fun _ => true,
    enrich := Except.error "unused",
    mediaFetchOk := fun _ => true,
    extFetch := fun _ => { ok := false },
    genExtFilename := fun n _ => n,
    postFilePath := "/out/p1.md",
    now := "T1" }

/-- The stub of the completed post. -/
def postW : PostStub := { id := "p1", title := "t", url := "u" }

/-! ### Helper lemmas -/

theorem find?_map_replace (posts : List (String × PostRecord)) (postId : String) (r : PostRecord) :
    (posts.map fun p => if p.fst == postId then (postId, r) else p).find?
        (fun p => p.fst == postId) =
      if posts.any (fun p => p.fst == postId) then some (postId, r) else none := by
  induction posts with
  | nil => rfl
  | cons q qs ih =>
    simp only [List.map_cons, List.any_cons]
    by_cases hq : (q.fst == postId) = true
    · rw [if_pos hq, List.find?_cons_of_pos _ (by simp)]
      simp [hq]
    · have hq' : (q.fst == postId) = false := Bool.eq_false_iff.mpr hq
      rw [if_neg hq, List.find?_cons_of_neg _ (by simp [hq'])]
      simp only [hq', Bool.false_or]
      exact ih

theorem find?_append_singleton (posts : List (String × PostRecord)) (postId : String)
    (r : PostRecord) (h : posts.any (fun p => p.fst == postId) = false) :
    (posts ++ [(postId, r)]).find? (fun p => p.fst == postId) = some (postId, r) := by
  induction posts with
  | nil => simp [List.find?]
  | cons q qs ih =>
    by_cases hq : (q.fst == postId) = true
    · rw [List.any_cons, hq, Bool.true_or] at h
      exact absurd h (by simp)
    · have hq' : (q.fst == postId) = false := Bool.eq_false_iff.mpr hq
      rw [List.any_cons, hq', Bool.false_or] at h
      rw [List.cons_append, List.find?_cons_of_neg _ (by simp [hq'])]
      exact ih h

theorem find?_setPost (posts : List (String × PostRecord)) (postId : String) (r : PostRecord) :
    (setPost posts postId r).find? (fun p => p.fst == postId) = some (postId, r) := by
  unfold setPost
  by_cases h : posts.any (fun p => p.fst == postId) = true
  · rw [if_pos h, find?_map_replace, if_pos h]
  · rw [if_neg h, find?_append_singleton posts postId r (Bool.eq_false_iff.mpr h)]

theorem lookupPost_updatePost (m : Manifest) (postId : String) (pd : PostFields) (now : String) :
    lookupPost (updatePost m postId pd now) postId = some
      { title := pd.title, url := pd.url, markdown_path := pd.markdown_path,
        images_count := pd.images_count, videos_count := pd.videos_count,
        external_links_count := pd.external_links_count,
        status := pd.status, error := pd.error,
        first_downloaded :=
          match lookupPost m postId with
          | some r => if r.first_downloaded == "" then now else r.first_downloaded
          | none => now,
        last_updated := now } := by
  unfold updatePost lookupPost
  simp only [find?_setPost]
  rfl

theorem lookupPost_saveManifest (m : Manifest) (now postId : String) :
    lookupPost (saveManifest m now) postId = lookupPost m postId := rfl

/-! ### Claim theorems -/

/-- C3 (amended): updatePost stores exactly the supplied fields as the new
record, preserving first_downloaded from the existing record (falling back
to the current time when no record exists or the stored value is empty),
always setting last_updated to the current time, and recomputing the
aggregate post count as the number of stored posts.  Applying it twice for
the same unit therefore preserves the original first_downloaded and yields
the second call's supplied fields; however, fields not supplied in a call
are dropped from the record, not left intact. -/
theorem updatePost_replace_spec (m : Manifest) (postId : String) (pd : PostFields)
    (now : String) :
    lookupPost (updatePost m postId pd now) postId = some
      { title := pd.title, url := pd.url, markdown_path := pd.markdown_path,
        images_count := pd.images_count, videos_count := pd.videos_count,
        external_links_count := pd.external_links_count,
        status := pd.status, error := pd.error,
        first_downloaded :=
          match lookupPost m postId with
          | some r => if r.first_downloaded == "" then now else r.first_downloaded
          | none => now,
        last_updated := now } ∧
    (updatePost m postId pd now).metadata.total_posts =
      (updatePost m postId pd now).posts.length ∧
    (∀ pd2 now2,
      lookupPost (updatePost (updatePost m postId pd now) postId pd2 now2) postId = some
        { title := pd2.title, url := pd2.url, markdown_path := pd2.markdown_path,
          images_count := pd2.images_count, videos_count := pd2.videos_count,
          external_links_count := pd2.external_links_count,
          status := pd2.status, error := pd2.error,
          first_downloaded :=
            (fun fd => if fd == "" then now2 else fd)
              (match lookupPost m postId with
               | some r => if r.first_downloaded == "" then now else r.first_downloaded
               | none => now),
          last_updated := now2 }) := by
  refine ⟨lookupPost_updatePost m postId pd now, rfl, fun pd2 now2 => ?_⟩
  rw [lookupPost_updatePost (updatePost m postId pd now) postId pd2 now2,
    lookupPost_updatePost m postId pd now]

/-- C3 counterexample: after a first update storing an error field and a
second update supplying only a title, the stored record has lost the error
field, refuting that fields not supplied are left intact by the merge
(first_downloaded is nevertheless preserved from the first call). -/
theorem updatePost_drops_unsupplied_fields :
    lookupPost exManifest2 "p" =
      some { title := some "t2", first_downloaded := "T1", last_updated := "T2" } ∧
    (lookupPost exManifest2 "p").map PostRecord.error ≠ some (some "boom") := by
  constructor
  · decide
  · decide

/-- C8: loading the manifest of a collection returns a freshly created
empty, schema-versioned manifest when no file exists, parses a well-formed
file, and raises the parse error when the file exists but is malformed. -/
theorem loadManifest_spec (groupName now : String) (m : Manifest) :
    loadManifest groupName ManifestFile.missing now =
      Except.ok { metadata := { group_name := groupName, created_at := now, last_run := none,
                                total_posts := 0, version := "1.1.0" },
                  posts := [], avatars := [] } ∧
    loadManifest groupName (ManifestFile.wellFormed m) now = Except.ok m ∧
    ∃ e, loadManifest groupName ManifestFile.malformed now = Except.error e :=
  ⟨rfl, rfl, ⟨"JSON parse error", rfl⟩⟩

/-- C10: each of the three browser-session strategies, invoked with no page
handle, returns exactly one failed result carrying a non-empty error
message and performs no navigation; the guard returns before any browser
interaction, so no exception can escape. -/
theorem sessionDownloaders_noPage_spec (url : String) (b1 b2 b3 : SessionBody) :
    googlePhotosDownload none b1 url =
      ([{ status := DlStatus.failed, url := url,
          error := some "No Playwright page provided" }], []) ∧
    driveFileDownload none b2 url =
      ([{ status := DlStatus.failed, url := url,
          error := some "No Playwright page provided to GoogleDriveFileDownloader" }], []) ∧
    driveFolderDownload none b3 url =
      ([{ status := DlStatus.failed, url := url,
          error := some "No Playwright page provided to GoogleDriveFolderDownloader" }], []) ∧
    ((googlePhotosDownload none b1 url).fst.all fun r =>
      r.status == DlStatus.failed && !(r.error.getD "" == "")) = true ∧
    ((driveFileDownload none b2 url).fst.all fun r =>
      r.status == DlStatus.failed && !(r.error.getD "" == "")) = true ∧
    ((driveFolderDownload none b3 url).fst.all fun r =>
      r.status == DlStatus.failed && !(r.error.getD "" == "")) = true :=
  ⟨rfl, rfl, rfl, rfl, rfl, rfl⟩

theorem retryAux_first_success {E A : Type} (fn : Nat → Except E A)
    (p1 p2 p3 : Nat) (a : A) :
    ∀ k idx remaining lastErr, k < remaining → fn (idx + k) = Except.ok a →
      (∀ j, j < k → ∃ e, fn (idx + j) = Except.error e) →
      retryAux fn p1 p2 p3 idx remaining lastErr =
        (Except.ok a, (List.range k).map fun n => delayFor p1 p2 p3 (idx + n)) := by
  intro k
  induction k with
  | zero =>
    intro idx remaining lastErr hk hok _
    obtain ⟨r, rfl⟩ : ∃ r, remaining = r + 1 := ⟨remaining - 1, by omega⟩
    rw [Nat.add_zero] at hok
    simp [retryAux, hok]
  | succ k ih =>
    intro idx remaining lastErr hk hok herr
    obtain ⟨r, rfl⟩ : ∃ r, remaining = r + 1 := ⟨remaining - 1, by omega⟩
    obtain ⟨e0, he0⟩ := herr 0 (by omega)
    rw [Nat.add_zero] at he0
    have hr : ¬ r = 0 := by omega
    have hrec := ih (idx + 1) r (some e0) (by omega)
      (by rw [show idx + 1 + k = idx + (k + 1) by omega]; exact hok)
      (fun j hj => by
        obtain ⟨e, he⟩ := herr (j + 1) (by omega)
        exact ⟨e, by rw [show idx + 1 + j = idx + (j + 1) by omega]; exact he⟩)
    simp only [retryAux, he0, if_neg hr, hrec]
    have hfe : (fun n => delayFor p1 p2 p3 (idx + 1 + n)) =
        fun n => delayFor p1 p2 p3 (idx + (n + 1)) := by
      funext n; rw [show idx + 1 + n = idx + (n + 1) by omega]
    rw [hfe, List.range_succ_eq_map, List.map_cons, List.map_map]
    rfl

theorem retryAux_all_fail {E A : Type} (fn : Nat → Except E A)
    (p1 p2 p3 : Nat) (elast : E) :
    ∀ remaining idx lastErr, 1 ≤ remaining →
      (∀ j, j < remaining → ∃ e, fn (idx + j) = Except.error e) →
      fn (idx + (remaining - 1)) = Except.error elast →
      retryAux fn p1 p2 p3 idx remaining lastErr =
        (Except.error (some elast),
         (List.range (remaining - 1)).map fun n => delayFor p1 p2 p3 (idx + n)) := by
  intro remaining
  induction remaining with
  | zero => intro idx lastErr h1; omega
  | succ r ih =>
    intro idx lastErr _ herr hlast
    by_cases hr : r = 0
    · subst hr
      rw [Nat.add_zero] at hlast
      simp [retryAux, hlast]
    · obtain ⟨e0, he0⟩ := herr 0 (by omega)
      rw [Nat.add_zero] at he0
      have hrec := ih (idx + 1) (some e0) (by omega)
        (fun j hj => by
          obtain ⟨e, he⟩ := herr (j + 1) (by omega)
          exact ⟨e, by rw [show idx + 1 + j = idx + (j + 1) by omega]; exact he⟩)
        (by rw [show idx + 1 + (r - 1) = idx + (r + 1 - 1) by omega]; exact hlast)
      simp only [retryAux, he0, if_neg hr, hrec]
      obtain ⟨r2, rfl⟩ : ∃ r2, r = r2 + 1 := ⟨r - 1, by omega⟩
      have hfe : (fun n => delayFor p1 p2 p3 (idx + 1 + n)) =
          fun n => delayFor p1 p2 p3 (idx + (n + 1)) := by
        funext n; rw [show idx + 1 + n = idx + (n + 1) by omega]
      simp only [Nat.add_sub_cancel, hfe]
      rw [List.range_succ_eq_map, List.map_cons, List.map_map]
      rfl

/-- C5: the retry wrapper returns the operation's result at the first
successful attempt, sleeping exactly min(initialDelay * factor ^ n,
maxDelay) after the zero-indexed failed attempt n and never after the
final attempt, and after exhausting every attempt it propagates the last
observed error unchanged. -/
theorem retryWithBackoff_spec {E A : Type} (fn : Nat → Except E A)
    (maxRetries initialDelay maxDelay factor : Nat) :
    (∀ k a, k < maxRetries → fn k = Except.ok a →
      (∀ j, j < k → ∃ e, fn j = Except.error e) →
      retryWithBackoff fn maxRetries initialDelay maxDelay factor =
        (Except.ok a, (List.range k).map fun n =>
          min (initialDelay * factor ^ n) maxDelay)) ∧
    (∀ elast, 1 ≤ maxRetries →
      (∀ j, j < maxRetries → ∃ e, fn j = Except.error e) →
      fn (maxRetries - 1) = Except.error elast →
      retryWithBackoff fn maxRetries initialDelay maxDelay factor =
        (Except.error (some elast), (List.range (maxRetries - 1)).map fun n =>
          min (initialDelay * factor ^ n) maxDelay)) := by
  constructor
  · intro k a hk hok herr
    have h := retryAux_first_success fn initialDelay maxDelay factor a k 0 maxRetries none hk
      (by simpa using hok) (fun j hj => by simpa using herr j hj)
    simpa [retryWithBackoff, delayFor] using h
  · intro elast h1 herr hlast
    have h := retryAux_all_fail fn initialDelay maxDelay factor elast maxRetries 0 none h1
      (fun j hj => by simpa using herr j hj) (by simpa using hlast)
    simpa [retryWithBackoff, delayFor] using h

/-- Witness for C5: three attempts with the first two failing and the
third succeeding return the success and sleep exactly the two backoff
delays; with every attempt failing the last error is propagated after the
same two sleeps. -/
theorem retryWithBackoff_spec_witness :
    retryWithBackoff retryFnW 3 1000 10000 2 = (Except.ok 42, [1000, 2000]) ∧
    retryWithBackoff (fun k => (Except.error (10 + k) : Except Nat Nat)) 3 1000 10000 2 =
      (Except.error (some 12), [1000, 2000]) := by
  constructor
  · have h := (retryWithBackoff_spec retryFnW 3 1000 10000 2).1 2 42 (by omega) rfl
      (fun j hj => ⟨10 + j, by
        have hj' : j = 0 ∨ j = 1 := by omega
        rcases hj' with rfl | rfl <;> rfl⟩)
    rw [h]; rfl
  · have h := (retryWithBackoff_spec (fun k => (Except.error (10 + k) : Except Nat Nat))
      3 1000 10000 2).2 12 (by omega) (fun j _ => ⟨10 + j, rfl⟩) rfl
    rw [h]; rfl

theorem insertDesc_ne_nil (d : Downloader) (l : List Downloader) : insertDesc d l ≠ [] := by
  cases l with
  | nil => simp [insertDesc]
  | cons e es =>
    unfold insertDesc
    split <;> simp

theorem head?_insertDesc (d : Downloader) (l : List Downloader) :
    (insertDesc d l).head? = some
      (match l.head? with
       | none => d
       | some e => if e.getPriority ≤ d.getPriority then d else e) := by
  cases l with
  | nil => rfl
  | cons e es =>
    unfold insertDesc
    split
    · rename_i h
      simp [List.head?, h]
    · rename_i h
      simp [List.head?, h]

theorem firstMaxPrio_eq_none (l : List Downloader) : firstMaxPrio l = none ↔ l = [] := by
  cases l with
  | nil => simp [firstMaxPrio]
  | cons d ds =>
    unfold firstMaxPrio
    constructor
    · intro h
      cases hfm : firstMaxPrio ds <;> rw [hfm] at h
      · exact absurd h (by simp)
      · rename_i b
        by_cases hlt : d.getPriority < b.getPriority <;> simp [hlt] at h
    · intro h
      exact absurd h (by simp)

theorem head?_sortDesc_eq_firstMaxPrio (l : List Downloader) :
    (sortDesc l).head? = firstMaxPrio l := by
  induction l with
  | nil => rfl
  | cons d ds ih =>
    show (insertDesc d (sortDesc ds)).head? = firstMaxPrio (d :: ds)
    rw [head?_insertDesc]
    unfold firstMaxPrio
    cases hfm : firstMaxPrio ds with
    | none =>
      have hnil : sortDesc ds = [] := by
        rw [hfm] at ih
        exact List.head?_eq_none_iff.mp ih
      rw [hnil]
      rfl
    | some b =>
      rw [hfm] at ih
      cases hs : sortDesc ds with
      | nil => rw [hs] at ih; exact absurd ih (by simp)
      | cons x xs =>
        rw [hs] at ih
        simp only [List.head?] at ih
        have hxb : x = b := by injection ih
        subst hxb
        simp only [List.head?]
        by_cases hle : x.getPriority ≤ d.getPriority
        · rw [if_pos hle, if_neg (not_lt.mpr hle)]
        · rw [if_neg hle, if_pos (lt_of_not_le hle)]

theorem firstMaxPrio_mem : ∀ (l : List Downloader) (d : Downloader),
    firstMaxPrio l = some d → d ∈ l := by
  intro l
  induction l with
  | nil => intro d h; exact absurd h (by simp [firstMaxPrio])
  | cons a as ih =>
    intro d h
    unfold firstMaxPrio at h
    cases hfm : firstMaxPrio as with
    | none =>
      rw [hfm] at h
      simp only [] at h
      have hda : a = d := by injection h
      subst hda
      exact List.mem_cons_self a as
    | some b =>
      rw [hfm] at h
      simp only [] at h
      by_cases hlt : a.getPriority < b.getPriority
      · rw [if_pos hlt] at h
        have hdb : b = d := by injection h
        subst hdb
        exact List.mem_cons_of_mem a (ih b hfm)
      · rw [if_neg hlt] at h
        have hda : a = d := by injection h
        subst hda
        exact List.mem_cons_self a as

theorem firstMaxPrio_max : ∀ (l : List Downloader) (d : Downloader),
    firstMaxPrio l = some d → ∀ e ∈ l, e.getPriority ≤ d.getPriority := by
  intro l
  induction l with
  | nil => intro d h; exact absurd h (by simp [firstMaxPrio])
  | cons a as ih =>
    intro d h e he
    unfold firstMaxPrio at h
    cases hfm : firstMaxPrio as with
    | none =>
      rw [hfm] at h
      simp only [] at h
      have hda : a = d := by injection h
      subst hda
      have hnil : as = [] := (firstMaxPrio_eq_none as).mp hfm
      subst hnil
      have : e = a := by simpa using he
      subst this
      exact le_refl _
    | some b =>
      rw [hfm] at h
      simp only [] at h
      rcases List.mem_cons.mp he with rfl | hmem
      · by_cases hlt : e.getPriority < b.getPriority
        · rw [if_pos hlt] at h
          have hdb : b = d := by injection h
          subst hdb
          exact le_of_lt hlt
        · rw [if_neg hlt] at h
          have hda : e = d := by injection h
          subst hda
          exact le_refl _
      · by_cases hlt : a.getPriority < b.getPriority
        · rw [if_pos hlt] at h
          have hdb : b = d := by injection h
          subst hdb
          exact ih b hfm e hmem
        · rw [if_neg hlt] at h
          have hda : a = d := by injection h
          subst hda
          exact le_trans (ih b hfm e hmem) (not_lt.mp hlt)

/-- C2: the registry resolution equals the spec-side selector resolveSpec
(first registered candidate of maximal priority among those accepting the
URL); consequently it returns none exactly when no registered strategy can
handle the URL, it returns the sole candidate when exactly one matches,
and any returned strategy accepts the URL and carries a priority at least
that of every other accepting strategy; being a function of the registry
and the URL, the resolution is deterministic. -/
theorem getDownloader_resolution_spec (registry : List Downloader) (url : String) :
    getDownloader registry url = resolveSpec registry url ∧
    (getDownloader registry url = none ↔
      ∀ d ∈ registry, d.canHandle url = false) ∧
    (∀ d, registry.filter (fun d => d.canHandle url) = [d] →
      getDownloader registry url = some d) ∧
    (∀ d, getDownloader registry url = some d →
      d ∈ registry ∧ d.canHandle url = true ∧
      ∀ e ∈ registry, e.canHandle url = true → e.getPriority ≤ d.getPriority) := by
  have heq : getDownloader registry url = resolveSpec registry url := by
    unfold getDownloader resolveSpec
    cases hf : registry.filter (fun d => d.canHandle url) with
    | nil => rfl
    | cons a t =>
      cases t with
      | nil => rfl
      | cons b t2 => exact head?_sortDesc_eq_firstMaxPrio _
  refine ⟨heq, ?_, ?_, ?_⟩
  · rw [heq]
    unfold resolveSpec
    rw [firstMaxPrio_eq_none, List.filter_eq_nil_iff]
    constructor
    · intro h d hd
      by_cases hc : d.canHandle url = true
      · exact absurd hc (by simpa using h d hd)
      · exact Bool.eq_false_iff.mpr hc
    · intro h d hd
      simp [h d hd]
  · intro d hone
    rw [heq]
    unfold resolveSpec
    rw [hone]
    rfl
  · intro d hd
    rw [heq] at hd
    unfold resolveSpec at hd
    have hmem := firstMaxPrio_mem _ d hd
    have hmax := firstMaxPrio_max _ d hd
    refine ⟨(List.mem_filter.mp hmem).1, by simpa using (List.mem_filter.mp hmem).2, ?_⟩
    intro e he hce
    exact hmax e (List.mem_filter.mpr ⟨he, by simpa using hce⟩)

/-- Witness for C2: a registry of two catch-all strategies with equal
priorities resolves to the first registered one, and the theorem applied
there bounds the priority of the second by that of the first. -/
theorem getDownloader_resolution_spec_witness :
    getDownloader [wA, wB] "https://example.org/a.pdf" = some wA ∧
    wB.getPriority ≤ wA.getPriority := by
  have h := (getDownloader_resolution_spec [wA, wB] "https://example.org/a.pdf").2.2.2 wA rfl
  exact ⟨rfl, h.2.2 wB (by simp) rfl⟩

theorem isUnwantedHtmlPage_iff (content : String) :
    isUnwantedHtmlPage content = true ↔
      (content.length < 50000 ∧
        ((∃ p ∈ errorIndicators, strContains (strToLower content) p = true) ∨
         (∃ p ∈ webAppIndicators, strContains (strToLower content) p = true) ∨
         (countStr content "<p>" < 3 ∧ countStr content "<article>" = 0 ∧
          0 < countStr content "<nav>"))) := by
  by_cases hlen : content.length < 50000 <;>
    by_cases herr : ∃ p ∈ errorIndicators, strContains (strToLower content) p = true <;>
    by_cases happ : ∃ p ∈ webAppIndicators, strContains (strToLower content) p = true <;>
    by_cases hstr : countStr content "<p>" < 3 ∧ countStr content "<article>" = 0 ∧
      0 < countStr content "<nav>" <;>
    simp_all [isUnwantedHtmlPage, List.any_eq_true, and_assoc]

/-- C9: a Direct-Fetch download whose resolved type is html is flagged as
unwanted and reported as a failed result exactly when the content is under
the size threshold and matches a known error-page phrase, or matches a
known app-store or marketing phrase, or has the structural signature of
fewer than three paragraph blocks, zero article blocks and at least one
navigation block; html not meeting these conditions is kept as a success. -/
theorem htmlClassifier_spec (url content finalPath finalFilename linkName : String)
    (size : Nat) :
    ((directDownloadFinish url content "html" finalPath finalFilename linkName size).status =
        DlStatus.failed ↔
      (content.length < 50000 ∧
        ((∃ p ∈ errorIndicators, strContains (strToLower content) p = true) ∨
         (∃ p ∈ webAppIndicators, strContains (strToLower content) p = true) ∨
         (countStr content "<p>" < 3 ∧ countStr content "<article>" = 0 ∧
          0 < countStr content "<nav>")))) ∧
    ((directDownloadFinish url content "html" finalPath finalFilename linkName size).status =
        DlStatus.success ↔
      ¬ (content.length < 50000 ∧
        ((∃ p ∈ errorIndicators, strContains (strToLower content) p = true) ∨
         (∃ p ∈ webAppIndicators, strContains (strToLower content) p = true) ∨
         (countStr content "<p>" < 3 ∧ countStr content "<article>" = 0 ∧
          0 < countStr content "<nav>")))) := by
  unfold directDownloadFinish
  rw [show (("html" == "html") = true) from rfl]
  rw [Bool.true_and]
  by_cases hu : isUnwantedHtmlPage content = true
  · rw [if_pos hu]
    rw [isUnwantedHtmlPage_iff] at hu
    constructor
    · simp only [true_iff]
      exact hu
    · constructor
      · intro hcontr
        exact absurd hcontr (by simp)
      · intro hcontr
        exact absurd hu hcontr
  · rw [if_neg hu]
    rw [isUnwantedHtmlPage_iff] at hu
    constructor
    · constructor
      · intro hcontr
        exact absurd hcontr (by simp)
      · intro hcontr
        exact absurd hcontr hu
    · simp only [true_iff]
      exact hu

/-- Witness for C9: a small pure-navigation page is classified unwanted and
reported failed, while a page with three paragraphs is kept as a success. -/
theorem htmlClassifier_spec_witness :
    (directDownloadFinish "https://h/x" "<nav>menu</nav>" "html" "/f" "f.html" "n" 15).status =
      DlStatus.failed ∧
    (directDownloadFinish "https://h/x" "<p>a<p>b<p>c" "html" "/f" "f.html" "n" 12).status =
      DlStatus.success := by
  constructor
  · exact (htmlClassifier_spec "https://h/x" "<nav>menu</nav>" "/f" "f.html" "n" 15).1.mpr
      (by decide)
  · exact (htmlClassifier_spec "https://h/x" "<p>a<p>b<p>c" "/f" "f.html" "n" 12).2.mpr
      (by decide)

theorem contains_iff_mem (l : List String) (u : String) : l.contains u = true ↔ u ∈ l := by
  simp [List.contains, List.elem_iff]

theorem subset_addNewMedia : ∀ (inView acc : List String), acc ⊆ addNewMedia acc inView := by
  intro inView
  induction inView with
  | nil => intro acc; exact List.Subset.refl acc
  | cons u rest ih =>
    intro acc
    show acc ⊆ addNewMedia (if acc.contains u then acc else acc ++ [u]) rest
    refine List.Subset.trans ?_ (ih _)
    by_cases hc : acc.contains u = true
    · rw [if_pos hc]
      exact List.Subset.refl acc
    · rw [if_neg hc]
      exact List.subset_append_left acc [u]

theorem mem_addNewMedia : ∀ (inView acc : List String) (x : String),
    x ∈ addNewMedia acc inView ↔ x ∈ acc ∨ x ∈ inView := by
  intro inView
  induction inView with
  | nil => intro acc x; simp [addNewMedia]
  | cons u rest ih =>
    intro acc x
    show x ∈ addNewMedia (if acc.contains u then acc else acc ++ [u]) rest ↔ _
    rw [ih]
    by_cases hc : acc.contains u = true
    · rw [if_pos hc]
      have hu : u ∈ acc := (contains_iff_mem acc u).mp hc
      constructor
      · rintro (hx | hx)
        · exact Or.inl hx
        · exact Or.inr (List.mem_cons_of_mem u hx)
      · rintro (hx | hx)
        · exact Or.inl hx
        · rcases List.mem_cons.mp hx with rfl | hx2
          · exact Or.inl hu
          · exact Or.inr hx2
    · rw [if_neg hc]
      simp only [List.mem_append, List.mem_singleton, List.mem_cons]
      tauto

theorem nodup_addNewMedia : ∀ (inView acc : List String),
    acc.Nodup → (addNewMedia acc inView).Nodup := by
  intro inView
  induction inView with
  | nil => intro acc h; exact h
  | cons u rest ih =>
    intro acc h
    show (addNewMedia (if acc.contains u then acc else acc ++ [u]) rest).Nodup
    refine ih _ ?_
    by_cases hc : acc.contains u = true
    · rw [if_pos hc]; exact h
    · rw [if_neg hc]
      have hu : u ∉ acc := fun hmem => hc ((contains_iff_mem acc u).mpr hmem)
      simp [List.nodup_append, h, hu]

theorem length_le_addNewMedia : ∀ (inView acc : List String),
    acc.length ≤ (addNewMedia acc inView).length := by
  intro inView
  induction inView with
  | nil => intro acc; exact le_refl _
  | cons u rest ih =>
    intro acc
    show acc.length ≤ (addNewMedia (if acc.contains u then acc else acc ++ [u]) rest).length
    refine le_trans ?_ (ih _)
    by_cases hc : acc.contains u = true
    · rw [if_pos hc]
    · rw [if_neg hc]
      simp

theorem addNewMedia_eq_of_length_le : ∀ (inView acc : List String),
    (addNewMedia acc inView).length ≤ acc.length → addNewMedia acc inView = acc := by
  intro inView
  induction inView with
  | nil => intro acc _; rfl
  | cons u rest ih =>
    intro acc h
    by_cases hc : acc.contains u = true
    · have hstep : addNewMedia acc (u :: rest) = addNewMedia acc rest := by
        show addNewMedia (if acc.contains u then acc else acc ++ [u]) rest = _
        rw [if_pos hc]
      rw [hstep] at h ⊢
      exact ih acc h
    · exfalso
      have hstep : addNewMedia acc (u :: rest) = addNewMedia (acc ++ [u]) rest := by
        show addNewMedia (if acc.contains u then acc else acc ++ [u]) rest = _
        rw [if_neg hc]
      rw [hstep] at h
      have := length_le_addNewMedia rest (acc ++ [u])
      simp only [List.length_append, List.length_singleton] at this
      omega

theorem addNewMedia_eq_of_subset : ∀ (inView acc : List String),
    inView ⊆ acc → addNewMedia acc inView = acc := by
  intro inView
  induction inView with
  | nil => intro acc _; rfl
  | cons u rest ih =>
    intro acc hsub
    have hu : u ∈ acc := hsub (List.mem_cons_self u rest)
    have hstep : addNewMedia acc (u :: rest) = addNewMedia acc rest := by
      show addNewMedia (if acc.contains u then acc else acc ++ [u]) rest = _
      rw [if_pos ((contains_iff_mem acc u).mpr hu)]
    rw [hstep]
    exact ih acc (fun x hx => hsub (List.mem_cons_of_mem u hx))

theorem mediaUpTo_nodup (feed : Nat → List String) : ∀ n, (mediaUpTo feed n).Nodup := by
  intro n
  induction n with
  | zero => simp [mediaUpTo]
  | succ n ih => exact nodup_addNewMedia (feed n) (mediaUpTo feed n) ih

theorem mediaUpTo_mono (feed : Nat → List String) :
    ∀ {k n}, k ≤ n → mediaUpTo feed k ⊆ mediaUpTo feed n := by
  intro k n h
  induction n with
  | zero =>
    have hk : k = 0 := by omega
    subst hk
    exact List.Subset.refl _
  | succ n ih =>
    rcases Nat.lt_or_ge k (n + 1) with hlt | hge
    · exact List.Subset.trans (ih (by omega)) (subset_addNewMedia (feed n) (mediaUpTo feed n))
    · have hk : k = n + 1 := by omega
      subst hk
      exact List.Subset.refl _

theorem feed_subset_mediaUpTo (feed : Nat → List String) {k n : Nat} (h : k < n) :
    ∀ u ∈ feed k, u ∈ mediaUpTo feed n := by
  intro u hu
  have h1 : u ∈ mediaUpTo feed (k + 1) :=
    (mem_addNewMedia (feed k) (mediaUpTo feed k) u).mpr (Or.inr hu)
  exact mediaUpTo_mono feed (by omega) h1

theorem mem_mediaUpTo (feed : Nat → List String) :
    ∀ n u, u ∈ mediaUpTo feed n → ∃ k, k < n ∧ u ∈ feed k := by
  intro n
  induction n with
  | zero => intro u hu; simp [mediaUpTo] at hu
  | succ n ih =>
    intro u hu
    rcases (mem_addNewMedia (feed n) (mediaUpTo feed n) u).mp hu with h1 | h2
    · obtain ⟨k, hk, hmem⟩ := ih u h1
      exact ⟨k, by omega, hmem⟩
    · exact ⟨n, by omega, h2⟩

theorem scrollGo_inv (feed : Nat → List String) :
    ∀ fuel attempts noNew r,
      scrollGo feed fuel attempts noNew (mediaUpTo feed attempts) = r →
      fuel + attempts = 1000 → noNew ≤ 24 → noNew ≤ attempts →
      mediaUpTo feed attempts = mediaUpTo feed (attempts - noNew) →
      attempts ≤ r.attempts ∧
      (r.stalled = true → 24 ≤ r.attempts ∧ r.attempts ≤ 999 ∧
        r.media = mediaUpTo feed (r.attempts + 1) ∧
        mediaUpTo feed (r.attempts + 1) = mediaUpTo feed (r.attempts - 24)) ∧
      (r.stalled = false → r.attempts = 1000 ∧ r.media = mediaUpTo feed 1000) := by
  intro fuel
  induction fuel with
  | zero =>
    intro attempts noNew r heq hfa _ _ _
    have ha : attempts = 1000 := by omega
    subst ha
    simp only [scrollGo] at heq
    subst heq
    refine ⟨le_refl _, ?_, ?_⟩
    · intro hst
      exact absurd hst (by simp)
    · intro _
      exact ⟨rfl, rfl⟩
  | succ fuel ih =>
    intro attempts noNew r heq hfa hn24 hna hinv
    have hm2 : addNewMedia (mediaUpTo feed attempts) (feed attempts) =
        mediaUpTo feed (attempts + 1) := rfl
    simp only [scrollGo, hm2] at heq
    by_cases hlt : (mediaUpTo feed attempts).length < (mediaUpTo feed (attempts + 1)).length
    · rw [if_pos hlt] at heq
      have h := ih (attempts + 1) 0 r heq (by omega) (by omega) (by omega)
        (by rw [Nat.sub_zero])
      exact ⟨by omega, h.2.1, h.2.2⟩
    · rw [if_neg hlt] at heq
      have hEq2 : mediaUpTo feed (attempts + 1) = mediaUpTo feed attempts := by
        rw [← hm2]
        exact addNewMedia_eq_of_length_le (feed attempts) (mediaUpTo feed attempts)
          (by rw [hm2]; omega)
      by_cases hbrk : 25 ≤ noNew + 1
      · rw [if_pos hbrk] at heq
        have hnn : noNew = 24 := by omega
        subst heq
        refine ⟨le_refl _, ?_, ?_⟩
        · intro _
          refine ⟨?_, ?_, rfl, ?_⟩
          · show 24 ≤ attempts
            omega
          · show attempts ≤ 999
            omega
          · show mediaUpTo feed (attempts + 1) = mediaUpTo feed (attempts - 24)
            calc mediaUpTo feed (attempts + 1) = mediaUpTo feed attempts := hEq2
              _ = mediaUpTo feed (attempts - noNew) := hinv
              _ = mediaUpTo feed (attempts - 24) := by rw [hnn]
        · intro hst
          exact absurd hst (by simp)
      · rw [if_neg hbrk] at heq
        have hinv2 : mediaUpTo feed (attempts + 1) =
            mediaUpTo feed (attempts + 1 - (noNew + 1)) := by
          calc mediaUpTo feed (attempts + 1) = mediaUpTo feed attempts := hEq2
            _ = mediaUpTo feed (attempts - noNew) := hinv
            _ = mediaUpTo feed (attempts + 1 - (noNew + 1)) := by
                congr 1
                omega
        have h := ih (attempts + 1) (noNew + 1) r heq (by omega) (by omega) (by omega) hinv2
        exact ⟨by omega, h.2.1, h.2.2⟩

theorem scrollGo_countdown (feed : Nat → List String) (M : Nat)
    (hM : ∀ k, M ≤ k → ∀ u ∈ feed k, u ∈ mediaUpTo feed M) :
    ∀ fuel attempts noNew,
      fuel + attempts = 1000 → M ≤ attempts → noNew ≤ 24 →
      attempts + (24 - noNew) ≤ 999 →
      scrollGo feed fuel attempts noNew (mediaUpTo feed attempts) =
        { media := mediaUpTo feed attempts, attempts := attempts + (24 - noNew),
          stalled := true } := by
  intro fuel
  induction fuel with
  | zero =>
    intro attempts noNew hfa _ _ hbound
    omega
  | succ fuel ih =>
    intro attempts noNew hfa hMa hn24 hbound
    have hsub : feed attempts ⊆ mediaUpTo feed attempts := fun u hu =>
      mediaUpTo_mono feed hMa (hM attempts hMa u hu)
    have hstep : addNewMedia (mediaUpTo feed attempts) (feed attempts) =
        mediaUpTo feed attempts :=
      addNewMedia_eq_of_subset (feed attempts) (mediaUpTo feed attempts) hsub
    have hEq2 : mediaUpTo feed (attempts + 1) = mediaUpTo feed attempts := hstep
    simp only [scrollGo, hstep]
    rw [if_neg (lt_irrefl _)]
    by_cases hbrk : 25 ≤ noNew + 1
    · rw [if_pos hbrk]
      have h0 : 24 - noNew = 0 := by omega
      rw [h0, Nat.add_zero]
    · rw [if_neg hbrk]
      have h := ih (attempts + 1) (noNew + 1) (by omega) (by omega) (by omega) (by omega)
      rw [hEq2] at h
      rw [h]
      have harith : attempts + 1 + (24 - (noNew + 1)) = attempts + (24 - noNew) := by omega
      rw [harith]

theorem scrollGo_reach (feed : Nat → List String) (M : Nat)
    (hM : ∀ k, M ≤ k → ∀ u ∈ feed k, u ∈ mediaUpTo feed M) (hM25 : M + 25 ≤ 1000) :
    ∀ fuel attempts noNew,
      fuel + attempts = 1000 → attempts ≤ M → noNew ≤ 24 →
      (scrollGo feed fuel attempts noNew (mediaUpTo feed attempts)).stalled = true ∧
      (scrollGo feed fuel attempts noNew (mediaUpTo feed attempts)).attempts ≤ M + 24 := by
  intro fuel
  induction fuel with
  | zero =>
    intro attempts noNew hfa hAM _
    omega
  | succ fuel ih =>
    intro attempts noNew hfa hAM hn24
    rcases Nat.lt_or_ge attempts M with hlt | hge
    · have hm2 : addNewMedia (mediaUpTo feed attempts) (feed attempts) =
          mediaUpTo feed (attempts + 1) := rfl
      simp only [scrollGo, hm2]
      by_cases hnew : (mediaUpTo feed attempts).length < (mediaUpTo feed (attempts + 1)).length
      · rw [if_pos hnew]
        exact ih (attempts + 1) 0 (by omega) (by omega) (by omega)
      · rw [if_neg hnew]
        have hEq2 : mediaUpTo feed (attempts + 1) = mediaUpTo feed attempts := by
          rw [← hm2]
          exact addNewMedia_eq_of_length_le (feed attempts) (mediaUpTo feed attempts)
            (by rw [hm2]; omega)
        by_cases hbrk : 25 ≤ noNew + 1
        · rw [if_pos hbrk]
          refine ⟨rfl, ?_⟩
          show attempts ≤ M + 24
          omega
        · rw [if_neg hbrk]
          exact ih (attempts + 1) (noNew + 1) (by omega) (by omega) (by omega)
    · have hAMeq : attempts = M := by omega
      subst hAMeq
      rw [scrollGo_countdown feed attempts hM (fuel + 1) attempts noNew hfa (le_refl _)
        hn24 (by omega)]
      refine ⟨rfl, ?_⟩
      show attempts + (24 - noNew) ≤ attempts + 24
      omega

/-- C6 (amended): the Google Photos progressive-scroll loop accumulates a
deduplicated set of identifiers: its result has no duplicates, contains
every identifier that appeared in a read it executed, and contains only
such identifiers; it exits through the stall branch only after 25
consecutive reads added nothing (so never on a single empty read), and
otherwise only at the hard ceiling of 1000 iterations; and whenever from
some read M onwards the feed shows nothing outside what the first M reads
accumulated (with M + 25 within the ceiling), the loop stalls out after at
most M + 24 scroll attempts.  The Google Drive folder strategy's scroll
loop does not obey this rule; see the counterexample. -/
theorem googlePhotosScroll_spec (feed : Nat → List String) :
    (googlePhotosScrollLoop feed).media.Nodup ∧
    (∀ k, k < itersRead (googlePhotosScrollLoop feed) →
      ∀ u ∈ feed k, u ∈ (googlePhotosScrollLoop feed).media) ∧
    (∀ u ∈ (googlePhotosScrollLoop feed).media,
      ∃ k, k < itersRead (googlePhotosScrollLoop feed) ∧ u ∈ feed k) ∧
    ((googlePhotosScrollLoop feed).stalled = true →
      24 ≤ (googlePhotosScrollLoop feed).attempts ∧
      mediaUpTo feed ((googlePhotosScrollLoop feed).attempts + 1) =
        mediaUpTo feed ((googlePhotosScrollLoop feed).attempts - 24)) ∧
    ((googlePhotosScrollLoop feed).stalled = false →
      (googlePhotosScrollLoop feed).attempts = 1000) ∧
    (∀ M, M + 25 ≤ 1000 →
      (∀ k, M ≤ k → ∀ u ∈ feed k, u ∈ mediaUpTo feed M) →
      (googlePhotosScrollLoop feed).stalled = true ∧
      (googlePhotosScrollLoop feed).attempts ≤ M + 24) := by
  have hbase := scrollGo_inv feed 1000 0 0 (googlePhotosScrollLoop feed) rfl
    (by omega) (by omega) (by omega) (by rw [Nat.sub_zero])
  have hmedia : (googlePhotosScrollLoop feed).media =
      mediaUpTo feed (itersRead (googlePhotosScrollLoop feed)) := by
    unfold itersRead
    cases hst : (googlePhotosScrollLoop feed).stalled
    · rw [if_neg (by simp)]
      obtain ⟨ha, hm⟩ := hbase.2.2 hst
      rw [ha, hm]
    · rw [if_pos rfl]
      exact (hbase.2.1 hst).2.2.1
  refine ⟨?_, ?_, ?_, ?_, ?_, ?_⟩
  · rw [hmedia]
    exact mediaUpTo_nodup feed _
  · intro k hk u hu
    rw [hmedia]
    exact feed_subset_mediaUpTo feed hk u hu
  · intro u hu
    rw [hmedia] at hu
    exact mem_mediaUpTo feed _ u hu
  · intro hst
    obtain ⟨h24, _, _, hgap⟩ := hbase.2.1 hst
    exact ⟨h24, hgap⟩
  · intro hst
    exact (hbase.2.2 hst).1
  · intro M hM25 hM
    exact scrollGo_reach feed M hM hM25 1000 0 0 (by omega) (by omega) (by omega)

/-- Witness for C6: with a feed whose identifiers all appear at the first
read, the loop exits through the stall branch after at most 25 scroll
attempts. -/
theorem googlePhotosScroll_spec_witness :
    (googlePhotosScrollLoop feedW).stalled = true ∧
    (googlePhotosScrollLoop feedW).attempts ≤ 25 := by
  have h := (googlePhotosScroll_spec feedW).2.2.2.2.2 1 (by omega)
    (fun k hk u hu => by
      unfold feedW at hu
      rw [if_neg (by omega)] at hu
      exact absurd hu (List.not_mem_nil u))
  exact ⟨h.1, by have := h.2; omega⟩

/-- C6 counterexample: the Google Drive folder multi-file enumeration
strategy's scroll loop terminates on a single empty iteration: with the
page height constant it performs exactly two height reads, the second and
final one being the first read with no change, and its final scroll
counter is 1 - nowhere near 25 consecutive empty iterations. -/
theorem driveScroll_counterexample :
    scrollToLoadAll (fun _ => 500) = (1, 2) ∧ 1 < 25 := ⟨rfl, by omega⟩

/-- C7 (amended): a URL for which no strategy resolves is recorded as
non-fetchable without any download invocation: the reworked orchestrator
loop records it directly in the failed-links list with zero download
invocations, and the media processor returns one failed result carrying
the fixed message and invokes no strategy.  However, the outcome lands in
the same failed category as a failed download attempt, distinguished only
by the error message and the invocation count, not by a distinct record
category; see the counterexample. -/
theorem nonFetchable_spec (registry : List Downloader) (galleriesEnabled : Bool)
    (url : String) (h : getDownloader registry url = none) :
    processExternalLinkIdx registry galleriesEnabled url = (LinkRecord.failedLink, 0) ∧
    downloadSingleMedia registry url =
      (Except.ok [{ status := DlStatus.failed, url := url,
                    error := some "No downloader found for URL" }], 0) := by
  constructor
  · unfold processExternalLinkIdx
    rw [h]
  · unfold downloadSingleMedia
    rw [h]

/-- Witness for C7: a mailto link resolves to no strategy in the factory
registry, and the theorem applied there yields the zero-invocation failed
record. -/
theorem nonFetchable_spec_witness :
    processExternalLinkIdx registryStub true "mailto:parent@example.com" =
      (LinkRecord.failedLink, 0) :=
  (nonFetchable_spec registryStub true "mailto:parent@example.com" rfl).1

/-- C7 counterexample: the recorded outcome does not distinguish the two
cases: the structurally non-fetchable mailto URL and a URL whose direct
download attempt failed both end in the very same failed-links record
category; only the number of download invocations differs. -/
theorem nonFetchable_counterexample :
    (processExternalLinkIdx registryStub true "mailto:parent@example.com").fst =
      LinkRecord.failedLink ∧
    (processExternalLinkIdx registryStub true "https://example.com/files/report.pdf").fst =
      LinkRecord.failedLink ∧
    (processExternalLinkIdx registryStub true "https://example.com/files/report.pdf").snd =
      1 := by
  refine ⟨rfl, rfl, rfl⟩

/-- C1: evaluation of the loop body at the failing input: enrichment
succeeds, the single image fetch fails, yet the unit's manifest record is
written with status complete, so the resume check of the next run will
skip the unit and the failed leaf fetch is never retried.  The claimed
partial or failed marking does not happen; failed is reserved for an
iteration that throws (such as a failing enrichment). -/
theorem leafFailure_marked_complete :
    outcomeLeafFail.failedDownloads = 1 ∧
    (lookupPost outcomeLeafFail.manifest "p1").map PostRecord.status =
      some (some "complete") ∧
    isPostComplete outcomeLeafFail.manifest "p1" = true := by
  refine ⟨?_, ?_, ?_⟩ <;> decide

/-- C4: before processing a unit the orchestrator performs the resume
check: with the manifest reporting the unit complete and a (truthy)
markdown path recorded, the recorded path is checked on disk; when the
file is present the unit is skipped entirely, with no fetch and the
manifest returned unchanged; when the file is absent the unit is fully
reprocessed: the iteration does not skip, rewrites the unit's record with
a fresh last_updated and a final status of complete or failed, and stamps
the save time. -/
theorem resumeCheck_spec (registry : List Downloader) (galleriesEnabled : Bool)
    (env : RunEnv) (m : Manifest) (post : PostStub) (p : String)
    (hc : isPostComplete m post.id = true)
    (hp : (lookupPost m post.id).bind PostRecord.markdown_path = some p)
    (hpne : (p == "") = false)
    (hid : ∀ ep, env.enrich = Except.ok ep → ep.id = post.id) :
    (env.fileExists p = true →
      processOnePost registry galleriesEnabled env m post =
        { manifest := m, skipped := true, fetchTrace := [],
          failedDownloads := 0, failedExternalLinks := [] }) ∧
    (env.fileExists p = false →
      (processOnePost registry galleriesEnabled env m post).skipped = false ∧
      (lookupPost (processOnePost registry galleriesEnabled env m post).manifest
          post.id).map PostRecord.last_updated = some env.now ∧
      ((lookupPost (processOnePost registry galleriesEnabled env m post).manifest
          post.id).map PostRecord.status = some (some "complete") ∨
       (lookupPost (processOnePost registry galleriesEnabled env m post).manifest
          post.id).map PostRecord.status = some (some "failed")) ∧
      (processOnePost registry galleriesEnabled env m post).manifest.metadata.last_run =
        some env.now) := by
  obtain ⟨r, hlk⟩ : ∃ r, lookupPost m post.id = some r := by
    unfold isPostComplete at hc
    cases hlk : lookupPost m post.id with
    | none => rw [hlk] at hc; exact absurd hc (by simp)
    | some r => exact ⟨r, rfl⟩
  have hmr : r.markdown_path = some p := by
    rw [hlk] at hp
    exact hp
  have hresume : resumeSkip env m post.id = env.fileExists p := by
    unfold resumeSkip
    rw [if_pos hc, hlk]
    simp only [hmr]
    simp [hpne]
  constructor
  · intro hex
    have hskip : resumeSkip env m post.id = true := by rw [hresume]; exact hex
    unfold processOnePost
    rw [if_pos hskip]
  · intro hex
    have hskip : ¬ resumeSkip env m post.id = true := by
      rw [hresume, hex]
      simp
    unfold processOnePost
    rw [if_neg hskip]
    cases henr : env.enrich with
    | error msg =>
      refine ⟨rfl, ?_, ?_, rfl⟩
      · rw [lookupPost_saveManifest, lookupPost_updatePost]
        rfl
      · right
        rw [lookupPost_saveManifest, lookupPost_updatePost]
        rfl
    | ok ep =>
      have hepid : ep.id = post.id := hid ep henr
      refine ⟨rfl, ?_, ?_, rfl⟩
      · show (lookupPost (saveManifest (updatePost m ep.id _ env.now) env.now)
            post.id).map PostRecord.last_updated = some env.now
        rw [lookupPost_saveManifest, hepid, lookupPost_updatePost]
        rfl
      · left
        show (lookupPost (saveManifest (updatePost m ep.id _ env.now) env.now)
            post.id).map PostRecord.status = some (some "complete")
        rw [lookupPost_saveManifest, hepid, lookupPost_updatePost]
        rfl

/-- Witness for C4: a manifest reporting the unit complete with a recorded
markdown path, in an environment whose existence check succeeds, skips the
unit entirely with an unchanged manifest and an empty fetch trace. -/
theorem resumeCheck_spec_witness :
    processOnePost [] true envSkipW mComplete postW =
      { manifest := mComplete, skipped := true, fetchTrace := [],
        failedDownloads := 0, failedExternalLinks := [] } :=
  (resumeCheck_spec [] true envSkipW mComplete postW "/out/p1.md"
    (by decide) (by decide) (by decide)
    (fun ep h => Except.noConfusion h)).1 rfl
